import Mathlib

/-!
Verification development for the Nifty-50 CSV analysis pipeline
(`NiftyAnalyzer` in `main.py`).

The pipeline is shallowly embedded:
* a CSV file that has been read successfully is a `RawTable` (header strings
  plus rows of cell strings); a file whose read raises is modelled as `none`;
* `pandas` cell semantics are made explicit: the default NA tokens of
  `read_csv`, the value-level `replace("-", "NaN")`, and `to_numeric(...,
  errors="coerce")` as an executable decimal parser over exact rationals
  (`NumV` adds the two IEEE infinities, which `to_numeric` parses from
  strings such as `"inf"`; a NaN result is represented by `none`);
* `nlargest`/`nsmallest` with the default `keep="first"` are a stable
  insertion sort (descending / ascending) followed by `take`.
-/

namespace Nifty

/-- Value domain of a numeric cell after `pd.to_numeric`: an exact rational
(floats are modelled as exact decimal rationals) or one of the two
infinities.  A NaN outcome is modelled as `Option.none` at use sites. -/
inductive NumV where
  | ninf : NumV
  | fin (q : ℚ) : NumV
  | pinf : NumV
deriving DecidableEq

/-- Linear-order comparison on `NumV` (`-inf < finite < +inf`). -/
def NumV.le : NumV → NumV → Bool
  | .ninf, _ => true
  | .fin _, .ninf => false
  | .fin a, .fin b => decide (a ≤ b)
  | .fin _, .pinf => true
  | .pinf, .pinf => true
  | .pinf, _ => false

/-- Multiplication of a `NumV` by a positive rational constant `n / d`
(the two pipeline thresholds are 0.7 = 7/10 and 1.2 = 12/10); on floats a
positive finite constant times an infinity is that infinity.  The result
is built with `mkRat` so that it stays kernel-reducible. -/
def NumV.scale (n : ℤ) (d : ℕ) : NumV → NumV
  | .ninf => .ninf
  | .fin q => .fin (mkRat (n * q.num) (d * q.den))
  | .pinf => .pinf

theorem NumV.le_refl (a : NumV) : NumV.le a a = true := by
  cases a <;> simp [NumV.le]

theorem NumV.le_total (a b : NumV) : NumV.le a b = true ∨ NumV.le b a = true := by
  cases a <;> cases b <;> simp [NumV.le]
  exact LinearOrder.le_total _ _

theorem NumV.le_trans {a b c : NumV} (h1 : NumV.le a b = true)
    (h2 : NumV.le b c = true) : NumV.le a c = true := by
  cases a <;> cases b <;> cases c <;> simp_all [NumV.le]
  exact Preorder.le_trans _ _ _ h1 h2

theorem NumV.ne_of_not_le {a b : NumV} (h : NumV.le a b = false) : a ≠ b := by
  intro he
  subst he
  rw [NumV.le_refl] at h
  exact absurd h (by simp)

/-- Python-style whitespace strip of a character list (`str.strip()`;
the numeric parser likewise ignores surrounding whitespace). -/
def stripChars (l : List Char) : List Char :=
  ((l.dropWhile Char.isWhitespace).reverse.dropWhile Char.isWhitespace).reverse

/-- Numeric value of a digit character. -/
def digVal (c : Char) : ℕ := c.toNat - 48

/-- Natural number denoted by a run of digit characters. -/
def natOfDigits (l : List Char) : ℕ := l.foldl (fun acc c => 10 * acc + digVal c) 0

/-- Exponent part of a float literal: an optional sign followed by a
nonempty run of digits. -/
def parseExp (l : List Char) : Option ℤ :=
  match l with
  | [] => none
  | c :: r =>
      if c = '+' then
        if r ≠ [] ∧ r.all Char.isDigit then some (natOfDigits r : ℤ) else none
      else if c = '-' then
        if r ≠ [] ∧ r.all Char.isDigit then some (-(natOfDigits r : ℤ)) else none
      else if (c :: r).all Char.isDigit then some (natOfDigits (c :: r) : ℤ)
      else none

/-- The rational `± m / 10^e * 10^k`, built with `mkRat` alone (no `Rat`
arithmetic) so that it stays kernel-reducible. -/
def ratVal (neg : Bool) (m e : ℕ) (k : ℤ) : ℚ :=
  match k with
  | .ofNat a =>
      mkRat ((if neg then -(m : ℤ) else (m : ℤ)) * ((10 ^ a : ℕ) : ℤ)) (10 ^ e)
  | .negSucc a =>
      mkRat (if neg then -(m : ℤ) else (m : ℤ)) (10 ^ e * 10 ^ (a + 1))

/-- All mantissa digits of `l` (integer digits, its leading digit run)
and `r2` (fraction digits, the leading digit run after the point). -/
def mantDigits (l r2 : List Char) : ℕ :=
  natOfDigits (l.takeWhile Char.isDigit ++ r2.takeWhile Char.isDigit)

/-- Number of fraction digits following the decimal point. -/
def fracLen (r2 : List Char) : ℕ := (r2.takeWhile Char.isDigit).length

/-- Signed decimal magnitude `digits [. digits] [(e|E) exponent]` with at
least one mantissa digit; anything else — in particular any string
containing a thousands-separator comma — is rejected. -/
def parseMantissa (neg : Bool) (l : List Char) : Option ℚ :=
  match l.dropWhile Char.isDigit with
  | [] =>
      if l.takeWhile Char.isDigit = [] then none
      else some (ratVal neg (natOfDigits (l.takeWhile Char.isDigit)) 0 0)
  | c :: r2 =>
      if c = '.' then
        if l.takeWhile Char.isDigit = [] ∧ r2.takeWhile Char.isDigit = [] then none
        else
          match r2.dropWhile Char.isDigit with
          | [] => some (ratVal neg (mantDigits l r2) (fracLen r2) 0)
          | c2 :: r4 =>
              if c2 = 'e' ∨ c2 = 'E' then
                (parseExp r4).map (fun k => ratVal neg (mantDigits l r2) (fracLen r2) k)
              else none
      else if (c = 'e' ∨ c = 'E') ∧ l.takeWhile Char.isDigit ≠ [] then
        (parseExp r2).map
          (fun k => ratVal neg (natOfDigits (l.takeWhile Char.isDigit)) 0 k)
      else none

/-- Magnitude of a float literal: the case-insensitive special words
`inf`/`infinity` (an infinity of the given sign) and `nan` (NaN, hence
`none`), otherwise a decimal mantissa. -/
def parseMag (pos : Bool) (l : List Char) : Option NumV :=
  if l.map Char.toLower = "inf".data ∨ l.map Char.toLower = "infinity".data then
    some (if pos then NumV.pinf else NumV.ninf)
  else if l.map Char.toLower = "nan".data then none
  else (parseMantissa (!pos) l).map NumV.fin

/-- Float parse of a whole string, as `pd.to_numeric(..., errors="coerce")`
treats a string cell: surrounding whitespace ignored, optional sign, then
a magnitude; `none` is the NaN outcome (unparsable text or a NaN word). -/
def parseFloat (s : String) : Option NumV :=
  match stripChars s.data with
  | [] => parseMag true []
  | c :: r =>
      if c = '+' then parseMag true r
      else if c = '-' then parseMag false r
      else parseMag true (c :: r)

/-- Coercion of one numeric-column cell, modelling
`pd.to_numeric(df[col].astype(str).replace("-", "NaN"), errors="coerce")`:
a cell that is exactly `"-"` is first replaced by the string `"NaN"`,
which then coerces to NaN (`none`). -/
def toNumeric (s : String) : Option NumV :=
  parseFloat (if s = "-" then "NaN" else s)

/-- Default NA tokens of `pandas.read_csv`: a raw cell equal to one of
these is NaN already at read time. -/
def naTokens : List String :=
  ["", "#N/A", "#N/A N/A", "#NA", "-1.#IND", "-1.#QNAN", "-NaN", "-nan",
   "1.#IND", "1.#QNAN", "<NA>", "N/A", "NA", "NULL", "NaN", "None",
   "n/a", "nan", "null"]

/-- Value of a raw cell after `read_csv`: `none` (NaN) for an NA token,
otherwise the cell text itself. -/
def readCell (s : String) : Option String :=
  if naTokens.contains s then none else some s

/-- Numeric-column value of a raw cell: a cell that is NaN at read time is
rendered `"nan"` by `astype(str)` and coerced straight back to NaN by
`to_numeric`; any other cell goes through `toNumeric`. -/
def numValue (raw : String) : Option NumV :=
  match readCell raw with
  | none => none
  | some s => toNumeric s

/-- `NiftyAnalyzer.COLUMN_MAP`: recognized raw header → canonical field.
The raw name of the 30-day column itself contains an internal run of
three spaces, exactly as in the source. -/
def COLUMN_MAP : List (String × String) :=
  [("SYMBOL", "symbol"), ("%CHNG", "pChange"), ("LTP", "lastPrice"),
   ("52W H", "high_52_week"), ("52W L", "low_52_week"),
   ("30 D   %CHNG", "change_30d")]

/-- Python `str.strip()` on a string. -/
def pyStrip (s : String) : String := ⟨stripChars s.data⟩

/-- One raw header after `df.columns = [col.strip() for col in df.columns]`
followed by `df.rename(columns=COLUMN_MAP)`: strip the surrounding
whitespace, then look the result up in the map by exact equality. -/
def renameHeader (h : String) : String :=
  match COLUMN_MAP.find? (fun p => p.1 == pyStrip h) with
  | some p => p.2
  | none => pyStrip h

/-- The six canonical field names (`COLUMN_MAP.values()`). -/
def CANONICAL : List String := COLUMN_MAP.map Prod.snd

/-- The five numeric canonical columns coerced by `_load_data`. -/
def NUMERIC_COLS : List String :=
  ["pChange", "lastPrice", "high_52_week", "low_52_week", "change_30d"]

/-- A successfully read CSV file: its header cells and its data rows. -/
structure RawTable where
  headers : List String
  rows : List (List String)

/-- One cleaned row: the canonical fields with coerced numeric values. -/
structure StockRecord where
  symbol : String
  pChange : NumV
  lastPrice : NumV
  high_52_week : NumV
  low_52_week : NumV
  change_30d : NumV
deriving DecidableEq

/-- Cell of a row at column index `i`; a short row reads as empty cells
(hence NaN), as `read_csv` pads short rows. -/
def cellAt (row : List String) (i : ℕ) : String := row.getD i ""

/-- `df.dropna()` on one row: the row is kept iff no column of the row is
NaN — the five numeric columns after `to_numeric` coercion, every other
column (including `symbol` and unmapped extra columns) after `read_csv`
NA conversion. -/
def rowKept (headers : List String) (row : List String) : Bool :=
  (List.range headers.length).all fun j =>
    if NUMERIC_COLS.contains (headers.getD j "") then (numValue (cellAt row j)).isSome
    else (readCell (cellAt row j)).isSome

/-- The `StockRecord` extracted from one surviving row (`none` = the row
is dropped by `dropna`). -/
def mkRecord (headers : List String) (row : List String) : Option StockRecord :=
  if rowKept headers row then
    match readCell (cellAt row (headers.indexOf "symbol")),
      numValue (cellAt row (headers.indexOf "pChange")),
      numValue (cellAt row (headers.indexOf "lastPrice")),
      numValue (cellAt row (headers.indexOf "high_52_week")),
      numValue (cellAt row (headers.indexOf "low_52_week")),
      numValue (cellAt row (headers.indexOf "change_30d")) with
    | some sym, some p, some lp, some hi, some lo, some c30 =>
        some ⟨sym, p, lp, hi, lo, c30⟩
    | _, _, _, _, _, _ => none
  else none

/-- `NiftyAnalyzer._load_data` on a successfully read table: strip and
rename the headers, fail (`None`) when any canonical column is missing
afterwards, otherwise coerce the five numeric columns and drop the
incomplete rows, keeping the survivors in source order. -/
def loadData (t : RawTable) : Option (List StockRecord) :=
  let headers := t.headers.map renameHeader
  if CANONICAL.all (fun c => headers.contains c) then
    some (t.rows.filterMap (mkRecord headers))
  else none

/-- `_load_data` including its `try/except`: a `none` input models a file
whose `read_csv` raises (unreadable or malformed); the exception is
caught and collapses to the same `None` result as a missing-column
failure. -/
def loadDataFile (file : Option RawTable) : Option (List StockRecord) :=
  match file with
  | none => none
  | some t => loadData t

/-- Stable ordered insertion: `a` goes in front of the first element `b`
with `le a b`; ties therefore keep the later-inserted (earlier-in-input)
element first. -/
def insertOrd {α : Type} (le : α → α → Bool) (a : α) : List α → List α
  | [] => [a]
  | b :: l => if le a b then a :: b :: l else b :: insertOrd le a l

/-- Stable insertion sort by `le`. -/
def sortOrd {α : Type} (le : α → α → Bool) (l : List α) : List α :=
  l.foldr (insertOrd le) []

/-- Descending comparison by a numeric key: the order of `nlargest`. -/
def descLe {α : Type} (key : α → NumV) (a b : α) : Bool := NumV.le (key b) (key a)

/-- Ascending comparison by a numeric key: the order of `nsmallest`. -/
def ascLe {α : Type} (key : α → NumV) (a b : α) : Bool := NumV.le (key a) (key b)

/-- `df.nlargest(n, col)` with the default `keep="first"`: a stable
descending sort by the column, then the first `n` rows. -/
def nlargest (n : ℕ) (key : StockRecord → NumV) (df : List StockRecord) :
    List StockRecord :=
  (sortOrd (descLe key) df).take n

/-- `df.nsmallest(n, col)` with the default `keep="first"`: a stable
ascending sort by the column, then the first `n` rows. -/
def nsmallest (n : ℕ) (key : StockRecord → NumV) (df : List StockRecord) :
    List StockRecord :=
  (sortOrd (ascLe key) df).take n

/-- Row mask `df["lastPrice"] <= 0.7 * df["high_52_week"]`. -/
def belowHighPred (r : StockRecord) : Bool :=
  NumV.le r.lastPrice (NumV.scale 7 10 r.high_52_week)

/-- Row mask `df["lastPrice"] >= 1.2 * df["low_52_week"]`. -/
def aboveLowPred (r : StockRecord) : Bool :=
  NumV.le (NumV.scale 12 10 r.low_52_week) r.lastPrice

/-- Third extract of `analyze`: filter by `belowHighPred`, then the five
qualifiers with the largest last price. -/
def belowHighExtract (df : List StockRecord) : List StockRecord :=
  nlargest 5 (fun r => r.lastPrice) (df.filter belowHighPred)

/-- Fourth extract of `analyze`: filter by `aboveLowPred`, then the five
qualifiers with the smallest last price. -/
def aboveLowExtract (df : List StockRecord) : List StockRecord :=
  nsmallest 5 (fun r => r.lastPrice) (df.filter aboveLowPred)

/-- `NiftyAnalyzer.analyze`: a tuple of five `None`s when the load failed,
otherwise the five extracts. -/
def analyze (odf : Option (List StockRecord)) :
    Option (List StockRecord) × Option (List StockRecord) ×
      Option (List StockRecord) × Option (List StockRecord) ×
      Option (List StockRecord) :=
  match odf with
  | none => (none, none, none, none, none)
  | some df =>
      (some (nlargest 5 (fun r => r.pChange) df),
       some (nsmallest 5 (fun r => r.pChange) df),
       some (belowHighExtract df),
       some (aboveLowExtract df),
       some (nlargest 5 (fun r => r.change_30d) df))

/-- The whole pipeline on one (possibly unreadable) input file. -/
def pipeline (file : Option RawTable) :
    Option (List StockRecord) × Option (List StockRecord) ×
      Option (List StockRecord) × Option (List StockRecord) ×
      Option (List StockRecord) :=
  analyze (loadDataFile file)

theorem insertOrd_perm {α : Type} (le : α → α → Bool) (a : α) :
    ∀ l : List α, List.Perm (insertOrd le a l) (a :: l)
  | [] => List.Perm.refl _
  | b :: t => by
      simp only [insertOrd]
      split
      · exact List.Perm.refl _
      · exact ((insertOrd_perm le a t).cons b).trans (List.Perm.swap a b t)

theorem sortOrd_perm {α : Type} (le : α → α → Bool) :
    ∀ l : List α, List.Perm (sortOrd le l) l
  | [] => List.Perm.refl _
  | b :: t =>
      (insertOrd_perm le b (sortOrd le t)).trans ((sortOrd_perm le t).cons b)

theorem sortOrd_length {α : Type} (le : α → α → Bool) (l : List α) :
    (sortOrd le l).length = l.length :=
  (sortOrd_perm le l).length_eq

theorem insertOrd_pairwise {α : Type} (le : α → α → Bool)
    (htot : ∀ a b, le a b = true ∨ le b a = true)
    (htr : ∀ {a b c}, le a b = true → le b c = true → le a c = true)
    (a : α) : ∀ {l : List α}, l.Pairwise (fun x y => le x y = true) →
      (insertOrd le a l).Pairwise (fun x y => le x y = true) := by
  intro l hl
  induction l with
  | nil => simp [insertOrd]
  | cons b t ih =>
      rcases List.pairwise_cons.mp hl with ⟨hb, ht⟩
      simp only [insertOrd]
      cases hab : le a b with
      | true =>
          simp only [if_true]
          refine List.pairwise_cons.mpr ⟨?_, hl⟩
          intro x hx
          rcases List.mem_cons.mp hx with rfl | hx
          · exact hab
          · exact htr hab (hb x hx)
      | false =>
          simp only [Bool.false_eq_true, if_false]
          refine List.pairwise_cons.mpr ⟨?_, ih ht⟩
          intro x hx
          rcases List.mem_cons.mp ((insertOrd_perm le a t).mem_iff.mp hx) with rfl | hx
          · rcases htot x b with h | h
            · exact absurd h (by simp [hab])
            · exact h
          · exact hb x hx

theorem sortOrd_pairwise {α : Type} (le : α → α → Bool)
    (htot : ∀ a b, le a b = true ∨ le b a = true)
    (htr : ∀ {a b c}, le a b = true → le b c = true → le a c = true) :
    ∀ l : List α, (sortOrd le l).Pairwise (fun x y => le x y = true)
  | [] => List.Pairwise.nil
  | b :: t => insertOrd_pairwise le htot htr b (sortOrd_pairwise le htot htr t)

theorem filter_insertOrd {α : Type} (le : α → α → Bool) (p : α → Bool) (a : α)
    (h : ∀ b, le a b = false → p a = true → p b = false) :
    ∀ l : List α, (insertOrd le a l).filter p =
      if p a then a :: l.filter p else l.filter p
  | [] => by
      simp only [insertOrd, List.filter_nil]
      cases hpa : p a <;> simp [List.filter_cons, hpa]
  | b :: t => by
      simp only [insertOrd]
      cases hab : le a b with
      | true =>
          simp only [if_true]
          cases hpa : p a <;> simp [List.filter_cons, hpa]
      | false =>
          simp only [Bool.false_eq_true, if_false]
          cases hpa : p a with
          | true =>
              have hpb : p b = false := h b hab hpa
              simp [List.filter_cons, hpb, filter_insertOrd le p a h t, hpa]
          | false =>
              simp [List.filter_cons, filter_insertOrd le p a h t, hpa]

theorem filter_sortOrd {α : Type} (le : α → α → Bool) (p : α → Bool)
    (h : ∀ a b, le a b = false → p a = true → p b = false) :
    ∀ l : List α, (sortOrd le l).filter p = l.filter p
  | [] => rfl
  | b :: t => by
      have hstep : sortOrd le (b :: t) = insertOrd le b (sortOrd le t) := rfl
      rw [hstep, filter_insertOrd le p b (h b), filter_sortOrd le p h t]
      cases hpb : p b <;> simp [List.filter_cons, hpb]

/-- The stability side condition of `filter_sortOrd`, specialised to the
descending key comparison and the records whose key equals `v`. -/
theorem descLe_stable_cond {α : Type} (key : α → NumV) (v : NumV) :
    ∀ a b : α, descLe key a b = false →
      (key a == v) = true → (key b == v) = false := by
  intro a b hab hav
  have hne : key b ≠ key a := NumV.ne_of_not_le hab
  have hv : key a = v := by simpa using hav
  simp only [beq_eq_false_iff_ne, ne_eq]
  intro he
  exact hne (he.trans hv.symm)

/-- The stability side condition for the ascending key comparison. -/
theorem ascLe_stable_cond {α : Type} (key : α → NumV) (v : NumV) :
    ∀ a b : α, ascLe key a b = false →
      (key a == v) = true → (key b == v) = false := by
  intro a b hab hav
  have hne : key a ≠ key b := NumV.ne_of_not_le hab
  have hv : key a = v := by simpa using hav
  simp only [beq_eq_false_iff_ne, ne_eq]
  intro he
  exact hne (hv.trans he.symm)

theorem mem_dropWhile_of_neg {α : Type} {p : α → Bool} {c : α} (hc : p c = false)
    {l : List α} (h : c ∈ l) : c ∈ l.dropWhile p := by
  rw [← List.takeWhile_append_dropWhile (p := p) (l := l)] at h
  rcases List.mem_append.mp h with h' | h'
  · have := List.mem_takeWhile_imp h'
    simp [hc] at this
  · exact h'

theorem mem_stripChars {c : Char} (hws : c.isWhitespace = false) {l : List Char}
    (h : c ∈ l) : c ∈ stripChars l := by
  unfold stripChars
  rw [List.mem_reverse]
  refine mem_dropWhile_of_neg hws ?_
  rw [List.mem_reverse]
  exact mem_dropWhile_of_neg hws h

theorem all_isDigit_false {r : List Char} (h : ',' ∈ r) :
    r.all Char.isDigit = false := by
  cases hall : r.all Char.isDigit
  · rfl
  · exact absurd (List.all_eq_true.mp hall ',' h) (by decide)

theorem parseExp_comma {l : List Char} (h : ',' ∈ l) : parseExp l = none := by
  cases l with
  | nil => rfl
  | cons c r =>
      simp only [parseExp]
      by_cases hp : c = '+'
      · have hr : ',' ∈ r := by
          rcases List.mem_cons.mp h with he | hm
          · exact absurd (he.trans hp) (by decide)
          · exact hm
        rw [if_pos hp, if_neg]
        intro hc
        exact absurd hc.2 (by simp [all_isDigit_false hr])
      · by_cases hmn : c = '-'
        · have hr : ',' ∈ r := by
            rcases List.mem_cons.mp h with he | hm
            · exact absurd (he.trans hmn) (by decide)
            · exact hm
          rw [if_neg hp, if_pos hmn, if_neg]
          intro hc
          exact absurd hc.2 (by simp [all_isDigit_false hr])
        · rw [if_neg hp, if_neg hmn, if_neg]
          simp [all_isDigit_false h]

theorem parseMantissa_comma {neg : Bool} {l : List Char} (h : ',' ∈ l) :
    parseMantissa neg l = none := by
  have h1 : ',' ∈ l.dropWhile Char.isDigit := mem_dropWhile_of_neg (by decide) h
  unfold parseMantissa
  split
  next heq =>
    rw [heq] at h1
    simp at h1
  next c r2 heq =>
    rw [heq] at h1
    by_cases hdot : c = '.'
    · have hr2 : ',' ∈ r2 := by
        rcases List.mem_cons.mp h1 with he | hm
        · exact absurd (he.trans hdot) (by decide)
        · exact hm
      have h3 : ',' ∈ r2.dropWhile Char.isDigit := mem_dropWhile_of_neg (by decide) hr2
      rw [if_pos hdot]
      split
      · rfl
      · split
        next heq3 =>
          rw [heq3] at h3
          simp at h3
        next c2 r4 heq3 =>
          rw [heq3] at h3
          rcases List.mem_cons.mp h3 with he | hm
          · rw [if_neg]
            intro hc
            rcases hc with hc | hc <;> rw [← he] at hc <;> exact absurd hc (by decide)
          · split
            · simp [parseExp_comma hm]
            · rfl
    · rw [if_neg hdot]
      rcases List.mem_cons.mp h1 with he | hm
      · rw [if_neg]
        intro hc
        rcases hc.1 with hc1 | hc1 <;> rw [← he] at hc1 <;> exact absurd hc1 (by decide)
      · split
        · simp [parseExp_comma hm]
        · rfl

theorem parseMag_comma {pos : Bool} {l : List Char} (h : ',' ∈ l) :
    parseMag pos l = none := by
  have hlow : ',' ∈ l.map Char.toLower :=
    List.mem_map.mpr ⟨',', h, by decide⟩
  unfold parseMag
  rw [if_neg, if_neg]
  · simp [parseMantissa_comma h]
  · intro hc
    rw [hc] at hlow
    exact absurd hlow (by decide)
  · intro hc
    rcases hc with hc | hc <;> rw [hc] at hlow <;> exact absurd hlow (by decide)

theorem parseFloat_comma {s : String} (h : ',' ∈ s.data) : parseFloat s = none := by
  have h1 : ',' ∈ stripChars s.data := mem_stripChars (by decide) h
  unfold parseFloat
  split
  next heq =>
    rw [heq] at h1
    simp at h1
  next c r heq =>
    rw [heq] at h1
    by_cases hp : c = '+'
    · have hr : ',' ∈ r := by
        rcases List.mem_cons.mp h1 with he | hm
        · exact absurd (he.trans hp) (by decide)
        · exact hm
      rw [if_pos hp]
      exact parseMag_comma hr
    · by_cases hmn : c = '-'
      · have hr : ',' ∈ r := by
          rcases List.mem_cons.mp h1 with he | hm
          · exact absurd (he.trans hmn) (by decide)
          · exact hm
        rw [if_neg hp, if_pos hmn]
        exact parseMag_comma hr
      · rw [if_neg hp, if_neg hmn]
        exact parseMag_comma h1

/-- `to_numeric` rejects every cell containing a thousands-separator
comma: such a cell coerces to NaN. -/
theorem toNumeric_comma {s : String} (h : ',' ∈ s.data) : toNumeric s = none := by
  unfold toNumeric
  rw [if_neg]
  · exact parseFloat_comma h
  · intro he
    rw [he] at h
    exact absurd h (by decide)

/-- The six raw headers exactly as in the NSE CSV export. -/
def stdRawHeaders : List String :=
  ["SYMBOL", "%CHNG", "LTP", "52W H", "52W L", "30 D   %CHNG"]

/-- The canonical header row, i.e. `stdRawHeaders` after renaming. -/
def stdHeaders : List String :=
  ["symbol", "pChange", "lastPrice", "high_52_week", "low_52_week", "change_30d"]

theorem stdRawHeaders_rename : stdRawHeaders.map renameHeader = stdHeaders := by decide

/-- A record with percent change 5, used in the tie-break scenario. -/
def recA : StockRecord :=
  ⟨"A", NumV.fin 5, NumV.fin 1, NumV.fin 1, NumV.fin 1, NumV.fin 1⟩

/-- A second record with the same percent change 5, listed after `recA`. -/
def recB : StockRecord :=
  ⟨"B", NumV.fin 5, NumV.fin 1, NumV.fin 1, NumV.fin 1, NumV.fin 1⟩

theorem numValue_comma {s : String} (h : ',' ∈ s.data) : numValue s = none := by
  unfold numValue
  cases hrc : readCell s with
  | none => rfl
  | some v =>
      have hv : s = v := by
        unfold readCell at hrc
        split at hrc
        · exact absurd hrc (by simp)
        · exact Option.some.inj hrc
      subst hv
      exact toNumeric_comma h

theorem readCell_ne_empty {s v : String} (h : readCell s = some v) : v ≠ "" := by
  unfold readCell at h
  split at h
  · exact absurd h (by simp)
  next hcon =>
    have hs : s = v := Option.some.inj h
    subst hs
    intro hv
    subst hv
    exact hcon (by decide)

theorem loadData_none_of_missing (hs : List String) (rows : List (List String))
    (h : ∃ c ∈ CANONICAL, (hs.map renameHeader).contains c = false) :
    loadData ⟨hs, rows⟩ = none := by
  rcases h with ⟨c, hc, hfalse⟩
  simp only [loadData]
  rw [if_neg]
  intro hall
  have h2 := List.all_eq_true.mp hall c hc
  rw [hfalse] at h2
  exact absurd h2 (by simp)

theorem loadData_inv {t : RawTable} {df : List StockRecord}
    (h : loadData t = some df) :
    df = t.rows.filterMap (mkRecord (t.headers.map renameHeader)) := by
  simp only [loadData] at h
  split at h
  · exact (Option.some.inj h).symm
  · exact absurd h (by simp)

theorem mkRecord_symbol {headers row : _} {r : StockRecord}
    (h : mkRecord headers row = some r) : r.symbol ≠ "" := by
  unfold mkRecord at h
  split at h
  · split at h
    next heq1 heq2 heq3 heq4 heq5 heq6 =>
      have hr := Option.some.inj h
      subst hr
      exact readCell_ne_empty heq1
    next => exact absurd h (by simp)
  · exact absurd h (by simp)

theorem descLe_total {α : Type} (key : α → NumV) (a b : α) :
    descLe key a b = true ∨ descLe key b a = true :=
  NumV.le_total (key b) (key a)

theorem descLe_trans {α : Type} (key : α → NumV) {a b c : α}
    (h1 : descLe key a b = true) (h2 : descLe key b c = true) :
    descLe key a c = true :=
  NumV.le_trans h2 h1

theorem ascLe_total {α : Type} (key : α → NumV) (a b : α) :
    ascLe key a b = true ∨ ascLe key b a = true :=
  NumV.le_total (key a) (key b)

theorem ascLe_trans {α : Type} (key : α → NumV) {a b c : α}
    (h1 : ascLe key a b = true) (h2 : ascLe key b c = true) :
    ascLe key a c = true :=
  NumV.le_trans h1 h2

theorem filter_take_append {α : Type} (p : α → Bool) (l : List α) (n : ℕ) :
    (l.take n).filter p ++ (l.drop n).filter p = l.filter p := by
  rw [← List.filter_append, List.take_append_drop]

theorem mem_of_mem_nlargest {n : ℕ} {key : StockRecord → NumV}
    {df : List StockRecord} {r : StockRecord} (h : r ∈ nlargest n key df) :
    r ∈ df :=
  (sortOrd_perm (descLe key) df).mem_iff.mp ((List.take_sublist n _).subset h)

theorem mem_of_mem_nsmallest {n : ℕ} {key : StockRecord → NumV}
    {df : List StockRecord} {r : StockRecord} (h : r ∈ nsmallest n key df) :
    r ∈ df :=
  (sortOrd_perm (ascLe key) df).mem_iff.mp ((List.take_sublist n _).subset h)

theorem rowKept_std (sym p lp hi lo c30 : String) :
    rowKept stdHeaders [sym, p, lp, hi, lo, c30] =
      ((readCell sym).isSome && (numValue p).isSome && (numValue lp).isSome &&
       (numValue hi).isSome && (numValue lo).isSome && (numValue c30).isSome) := by
  simp [rowKept, stdHeaders, cellAt, NUMERIC_COLS, List.range_succ, Bool.and_assoc]

theorem mkRecord_std_isSome (sym p lp hi lo c30 : String) :
    (mkRecord stdHeaders [sym, p, lp, hi, lo, c30]).isSome = true ↔
      ((readCell sym).isSome = true ∧ (numValue p).isSome = true ∧
       (numValue lp).isSome = true ∧ (numValue hi).isSome = true ∧
       (numValue lo).isSome = true ∧ (numValue c30).isSome = true) := by
  unfold mkRecord
  rw [rowKept_std]
  cases hs : readCell sym <;> cases hp : numValue p <;> cases hlp : numValue lp <;>
    cases hhi : numValue hi <;> cases hlo : numValue lo <;> cases hc : numValue c30 <;>
    simp [stdHeaders, cellAt, hs, hp, hlp, hhi, hlo, hc]

/-- Claim C1, as stated, is false: the cell `"1,234.5"` is not parsed with
its separators removed (which would give `1234.5 = 12345/10`); instead
`to_numeric` coerces it to NaN, and a row containing it — all other
fields valid — is dropped rather than retained. -/
theorem C1_counterexample :
    toNumeric "1,234.5" = none ∧
    toNumeric "1,234.5" ≠ some (NumV.fin (mkRat 12345 10)) ∧
    toNumeric "1234.5" = some (NumV.fin (mkRat 12345 10)) ∧
    loadData ⟨stdRawHeaders, [["A", "1", "1,234.5", "2000", "100", "2"]]⟩ =
      some [] := by
  decide

/-- Claim C1 (amended): a raw numeric cell containing a thousands-separator
comma is NOT comma-stripped by the normalizer: the cell fails numeric
coercion, its value is NaN (undefined), and the whole row is dropped
even when every other field is valid. -/
theorem C1_comma_cell_dropped (sym p lp hi lo c30 : String)
    (h : ',' ∈ lp.data) :
    numValue lp = none ∧
    mkRecord stdHeaders [sym, p, lp, hi, lo, c30] = none := by
  refine ⟨numValue_comma h, ?_⟩
  unfold mkRecord
  rw [rowKept_std]
  simp [numValue_comma h]

theorem C1_witness :
    ',' ∈ "1,234.5".data ∧
    (numValue "1,234.5" = none ∧
     mkRecord stdHeaders ["A", "1", "1,234.5", "2000", "100", "2"] = none) :=
  ⟨by decide, C1_comma_cell_dropped "A" "1" "1,234.5" "2000" "100" "2" (by decide)⟩

/-- Claim C2, as stated, is false: here is a row whose five numeric cells
(`"1"`, `"2"`, `"3"`, `"1"`, `"2"`) all parse successfully, yet the row is
dropped — its symbol cell is empty, which `read_csv` reads as NaN and
`dropna()` removes, although `symbol` is not one of the five numeric
fields. -/
theorem C2_counterexample :
    numValue "1" = some (NumV.fin 1) ∧ numValue "2" = some (NumV.fin 2) ∧
    numValue "3" = some (NumV.fin 3) ∧
    loadData ⟨stdRawHeaders, [["", "1", "2", "3", "1", "2"]]⟩ = some [] := by
  decide

/-- Claim C2 (amended): with the canonical six-column layout, a row is kept
iff its symbol cell AND all five numeric cells are defined — any NA cell,
numeric or not, forces the drop — and the resulting RecordSet is the
per-row extraction of the source rows in source order. -/
theorem C2_drop_iff :
    (∀ sym p lp hi lo c30 : String,
      (mkRecord stdHeaders [sym, p, lp, hi, lo, c30]).isSome = true ↔
        ((readCell sym).isSome = true ∧ (numValue p).isSome = true ∧
         (numValue lp).isSome = true ∧ (numValue hi).isSome = true ∧
         (numValue lo).isSome = true ∧ (numValue c30).isSome = true)) ∧
    (∀ rows : List (List String),
      loadData ⟨stdRawHeaders, rows⟩ =
        some (rows.filterMap (mkRecord stdHeaders))) := by
  refine ⟨mkRecord_std_isSome, ?_⟩
  intro rows
  have hcond : CANONICAL.all
      (fun c => (stdRawHeaders.map renameHeader).contains c) = true := by decide
  simp only [loadData]
  rw [if_pos hcond, stdRawHeaders_rename]

theorem C2_witness :
    loadData ⟨stdRawHeaders, [["A", "1", "2", "3", "1", "2"]]⟩ =
      some ([["A", "1", "2", "3", "1", "2"]].filterMap (mkRecord stdHeaders)) :=
  C2_drop_iff.2 [["A", "1", "2", "3", "1", "2"]]

/-- Claim C3 (confirmed): when, after translation, any of the six canonical
field names is missing from the header set, the load fails with the fatal
`None` ("no dataset") outcome regardless of the data rows, and `analyze`
then returns the tuple of five `None`s — no partial dataset or extract. -/
theorem C3_missing_column_fails (hs : List String) (rows : List (List String))
    (h : ∃ c ∈ CANONICAL, (hs.map renameHeader).contains c = false) :
    loadData ⟨hs, rows⟩ = none ∧
      analyze (loadData ⟨hs, rows⟩) = (none, none, none, none, none) := by
  have h1 := loadData_none_of_missing hs rows h
  exact ⟨h1, by rw [h1]; rfl⟩

theorem C3_witness :
    (∃ c ∈ CANONICAL,
      ((["SYMBOL", "%CHNG", "LTP", "52W H", "52W L"].map renameHeader).contains c
        = false)) ∧
    (loadData ⟨["SYMBOL", "%CHNG", "LTP", "52W H", "52W L"],
        [["X", "1", "2", "3", "4"]]⟩ = none ∧
     analyze (loadData ⟨["SYMBOL", "%CHNG", "LTP", "52W H", "52W L"],
        [["X", "1", "2", "3", "4"]]⟩) = (none, none, none, none, none)) :=
  ⟨by decide, C3_missing_column_fails _ _ (by decide)⟩

/-- Claim C4, as stated, is false: header matching does NOT collapse
internal whitespace runs.  The header `"30 D %CHNG"` (single internal
spaces) differs from the recognized raw name `"30 D   %CHNG"` only in the
amount of internal repeated spaces, yet it does not map to `change_30d`,
and a header row containing it (with the other five standard names) makes
the whole load fail. -/
theorem C4_counterexample :
    renameHeader "30 D %CHNG" = "30 D %CHNG" ∧
    renameHeader "30 D %CHNG" ≠ "change_30d" ∧
    loadData ⟨["SYMBOL", "%CHNG", "LTP", "52W H", "52W L", "30 D %CHNG"],
      [["A", "1", "2", "3", "1", "2"]]⟩ = none := by
  decide

/-- Claim C4 (amended): header matching is insensitive to surrounding
whitespace only — a raw header whose `strip()` equals a recognized raw
name (internal whitespace matching exactly, including the three internal
spaces of the 30-day column name) maps to that name's canonical field. -/
theorem C4_strip_only_matching (p : String × String) (hp : p ∈ COLUMN_MAP)
    (h : String) (hh : pyStrip h = p.1) : renameHeader h = p.2 := by
  simp only [COLUMN_MAP, List.mem_cons, List.not_mem_nil, or_false] at hp
  rcases hp with rfl | rfl | rfl | rfl | rfl | rfl <;>
    · unfold renameHeader
      simp only [hh]
      decide

theorem C4_witness :
    ("30 D   %CHNG", "change_30d") ∈ COLUMN_MAP ∧
    pyStrip " 30 D   %CHNG  " = "30 D   %CHNG" ∧
    renameHeader " 30 D   %CHNG  " = "change_30d" :=
  ⟨by decide, by decide,
    C4_strip_only_matching ("30 D   %CHNG", "change_30d") (by decide)
      " 30 D   %CHNG  " (by decide)⟩

/-- Claim C5 (confirmed): `topN(records, field, 5)` returns exactly
`min(5, |records|)` records, never failing on short input, and every
selected record's field value is ≥ every non-selected record's value (the
non-selected records being the remainder of the sorted sequence, which
together with the selection is a permutation of the input); symmetrically
for `bottomN` with ≤. -/
theorem C5_selection_count_and_bound (df : List StockRecord)
    (key : StockRecord → NumV) :
    (nlargest 5 key df).length = min 5 df.length ∧
    (nsmallest 5 key df).length = min 5 df.length ∧
    List.Perm (nlargest 5 key df ++ (sortOrd (descLe key) df).drop 5) df ∧
    (∀ x ∈ nlargest 5 key df, ∀ y ∈ (sortOrd (descLe key) df).drop 5,
      NumV.le (key y) (key x) = true) ∧
    List.Perm (nsmallest 5 key df ++ (sortOrd (ascLe key) df).drop 5) df ∧
    (∀ x ∈ nsmallest 5 key df, ∀ y ∈ (sortOrd (ascLe key) df).drop 5,
      NumV.le (key x) (key y) = true) := by
  refine ⟨?_, ?_, ?_, ?_, ?_, ?_⟩
  · rw [nlargest, List.length_take, sortOrd_length]
  · rw [nsmallest, List.length_take, sortOrd_length]
  · rw [nlargest, List.take_append_drop]
    exact sortOrd_perm _ df
  · have hpw := sortOrd_pairwise (descLe key) (descLe_total key)
      (fun h1 h2 => descLe_trans key h1 h2) df
    rw [← List.take_append_drop 5 (sortOrd (descLe key) df)] at hpw
    exact fun x hx y hy => (List.pairwise_append.mp hpw).2.2 x hx y hy
  · rw [nsmallest, List.take_append_drop]
    exact sortOrd_perm _ df
  · have hpw := sortOrd_pairwise (ascLe key) (ascLe_total key)
      (fun h1 h2 => ascLe_trans key h1 h2) df
    rw [← List.take_append_drop 5 (sortOrd (ascLe key) df)] at hpw
    exact fun x hx y hy => (List.pairwise_append.mp hpw).2.2 x hx y hy

theorem C5_witness :
    (nlargest 5 (fun r => r.pChange) [recA, recB]).length = min 5 2 :=
  (C5_selection_count_and_bound [recA, recB] (fun r => r.pChange)).1

/-- Claim C6 (confirmed): `topN`/`bottomN` are stable — among the records
whose key equals any given value, the output lists them as a prefix of
their input-order listing, so an earlier record precedes an equal-valued
later one — the outputs are ordered descending (`topN`) resp. ascending
(`bottomN`) by the key, and on the concrete tie
`[(A, pChange=5), (B, pChange=5)]` the top-1 selection is `[A]`. -/
theorem C6_stable_tiebreak (df : List StockRecord) (key : StockRecord → NumV)
    (n : ℕ) (v : NumV) :
    (∃ t, (nlargest n key df).filter (fun r => key r == v) ++ t =
      df.filter (fun r => key r == v)) ∧
    (∃ t, (nsmallest n key df).filter (fun r => key r == v) ++ t =
      df.filter (fun r => key r == v)) ∧
    (nlargest n key df).Pairwise (fun a b => NumV.le (key b) (key a) = true) ∧
    (nsmallest n key df).Pairwise (fun a b => NumV.le (key a) (key b) = true) ∧
    nlargest 1 (fun r => r.pChange) [recA, recB] = [recA] := by
  refine ⟨?_, ?_, ?_, ?_, by decide⟩
  · refine ⟨((sortOrd (descLe key) df).drop n).filter (fun r => key r == v), ?_⟩
    rw [nlargest, filter_take_append]
    exact filter_sortOrd _ _ (descLe_stable_cond key v) df
  · refine ⟨((sortOrd (ascLe key) df).drop n).filter (fun r => key r == v), ?_⟩
    rw [nsmallest, filter_take_append]
    exact filter_sortOrd _ _ (ascLe_stable_cond key v) df
  · exact (sortOrd_pairwise (descLe key) (descLe_total key)
      (fun h1 h2 => descLe_trans key h1 h2) df).sublist (List.take_sublist n _)
  · exact (sortOrd_pairwise (ascLe key) (ascLe_total key)
      (fun h1 h2 => ascLe_trans key h1 h2) df).sublist (List.take_sublist n _)

theorem C6_witness :
    nlargest 1 (fun r => r.pChange) [recA, recB] = [recA] :=
  (C6_stable_tiebreak [] (fun r => r.pChange) 0 (NumV.fin 0)).2.2.2.2

/-- Claim C7 (confirmed): the below-high extract contains only records with
`lastPrice ≤ 0.7 × high52week` (inclusive) drawn from the RecordSet and
equals the (up to) 5 qualifying records with the highest last price; the
above-low extract contains only records with `lastPrice ≥ 1.2 × low52week`
(inclusive) and equals the (up to) 5 qualifiers with the lowest last
price; an empty qualifying subset yields an empty extract, no error. -/
theorem C7_threshold_extracts (df : List StockRecord) :
    (∀ r ∈ belowHighExtract df,
      r ∈ df ∧ NumV.le r.lastPrice (NumV.scale 7 10 r.high_52_week) = true) ∧
    (belowHighExtract df).length = min 5 (df.filter belowHighPred).length ∧
    (df.filter belowHighPred = [] → belowHighExtract df = []) ∧
    (∀ x ∈ belowHighExtract df,
      ∀ y ∈ (sortOrd (descLe (fun r => r.lastPrice))
          (df.filter belowHighPred)).drop 5,
        NumV.le y.lastPrice x.lastPrice = true) ∧
    (∀ r ∈ aboveLowExtract df,
      r ∈ df ∧ NumV.le (NumV.scale 12 10 r.low_52_week) r.lastPrice = true) ∧
    (aboveLowExtract df).length = min 5 (df.filter aboveLowPred).length ∧
    (df.filter aboveLowPred = [] → aboveLowExtract df = []) ∧
    (∀ x ∈ aboveLowExtract df,
      ∀ y ∈ (sortOrd (ascLe (fun r => r.lastPrice))
          (df.filter aboveLowPred)).drop 5,
        NumV.le x.lastPrice y.lastPrice = true) := by
  refine ⟨?_, ?_, ?_, ?_, ?_, ?_, ?_, ?_⟩
  · intro r hr
    have hf : r ∈ df.filter belowHighPred := mem_of_mem_nlargest hr
    rcases List.mem_filter.mp hf with ⟨hdf, hpred⟩
    exact ⟨hdf, hpred⟩
  · rw [belowHighExtract, nlargest, List.length_take, sortOrd_length]
  · intro hempty
    rw [belowHighExtract, hempty]
    rfl
  · have hpw := sortOrd_pairwise (descLe (fun r => r.lastPrice))
      (descLe_total _) (fun h1 h2 => descLe_trans _ h1 h2)
      (df.filter belowHighPred)
    rw [← List.take_append_drop 5
      (sortOrd (descLe (fun r => r.lastPrice)) (df.filter belowHighPred))] at hpw
    exact fun x hx y hy => (List.pairwise_append.mp hpw).2.2 x hx y hy
  · intro r hr
    have hf : r ∈ df.filter aboveLowPred := mem_of_mem_nsmallest hr
    rcases List.mem_filter.mp hf with ⟨hdf, hpred⟩
    exact ⟨hdf, hpred⟩
  · rw [aboveLowExtract, nsmallest, List.length_take, sortOrd_length]
  · intro hempty
    rw [aboveLowExtract, hempty]
    rfl
  · have hpw := sortOrd_pairwise (ascLe (fun r => r.lastPrice))
      (ascLe_total _) (fun h1 h2 => ascLe_trans _ h1 h2)
      (df.filter aboveLowPred)
    rw [← List.take_append_drop 5
      (sortOrd (ascLe (fun r => r.lastPrice)) (df.filter aboveLowPred))] at hpw
    exact fun x hx y hy => (List.pairwise_append.mp hpw).2.2 x hx y hy

theorem C7_witness :
    (belowHighExtract [recA]).length =
      min 5 ([recA].filter belowHighPred).length :=
  (C7_threshold_extracts [recA]).2.1

/-- A one-row table all of whose cells are defined. -/
def exTable : RawTable := ⟨stdRawHeaders, [["A", "1", "2", "3", "1", "2"]]⟩

/-- The record loaded from `exTable`. -/
def exRec : StockRecord :=
  ⟨"A", NumV.fin 1, NumV.fin 2, NumV.fin 3, NumV.fin 1, NumV.fin 2⟩

/-- Claim C8, as stated, is false: finiteness is not guaranteed.  The cell
`"inf"` is not an NA token, `to_numeric` parses it to +infinity, and
`dropna()` does not remove it: the record survives into the RecordSet
with an infinite `high52week`. -/
theorem C8_counterexample :
    loadData ⟨stdRawHeaders, [["A", "1", "2", "inf", "1", "2"]]⟩ =
      some [⟨"A", NumV.fin 1, NumV.fin 2, NumV.pinf, NumV.fin 1, NumV.fin 2⟩] ∧
    StockRecord.high_52_week
        ⟨"A", NumV.fin 1, NumV.fin 2, NumV.pinf, NumV.fin 1, NumV.fin 2⟩ =
      NumV.pinf := by
  decide

/-- Claim C8 (amended): every record of a successfully loaded RecordSet has
its five numeric fields defined (non-NaN: a surviving record carries a
`NumV` value, never the NaN outcome `none`) — though not necessarily
finite, since `to_numeric` parses infinity words — and a non-empty
symbol; every downstream extract (`topN`, `bottomN` and the two filter
extracts) selects a subset of the RecordSet and so preserves the
invariants. -/
theorem C8_record_invariants (t : RawTable) (df : List StockRecord)
    (h : loadData t = some df) :
    (∀ r ∈ df, r.symbol ≠ "") ∧
    (∀ (n : ℕ) (key : StockRecord → NumV),
      ∀ r ∈ nlargest n key df, r ∈ df ∧ r.symbol ≠ "") ∧
    (∀ (n : ℕ) (key : StockRecord → NumV),
      ∀ r ∈ nsmallest n key df, r ∈ df ∧ r.symbol ≠ "") ∧
    (∀ r ∈ belowHighExtract df, r ∈ df ∧ r.symbol ≠ "") ∧
    (∀ r ∈ aboveLowExtract df, r ∈ df ∧ r.symbol ≠ "") := by
  have hsym : ∀ r ∈ df, r.symbol ≠ "" := by
    intro r hr
    rw [loadData_inv h] at hr
    rcases List.mem_filterMap.mp hr with ⟨row, _, hmk⟩
    exact mkRecord_symbol hmk
  refine ⟨hsym, ?_, ?_, ?_, ?_⟩
  · intro n key r hr
    have hdf := mem_of_mem_nlargest hr
    exact ⟨hdf, hsym r hdf⟩
  · intro n key r hr
    have hdf := mem_of_mem_nsmallest hr
    exact ⟨hdf, hsym r hdf⟩
  · intro r hr
    have hdf := (List.mem_filter.mp (mem_of_mem_nlargest hr)).1
    exact ⟨hdf, hsym r hdf⟩
  · intro r hr
    have hdf := (List.mem_filter.mp (mem_of_mem_nsmallest hr)).1
    exact ⟨hdf, hsym r hdf⟩

theorem C8_witness :
    loadData exTable = some [exRec] ∧ exRec.symbol ≠ "" :=
  ⟨by decide, (C8_record_invariants exTable [exRec] (by decide)).1 exRec (by decide)⟩

/-- Claim C9 (confirmed): the whole pipeline (parse → normalize → analyze)
is a deterministic pure function of the raw input, the configuration
constants being fixed definitions: byte-identical inputs produce
identical ordered output across all five extracts. -/
theorem C9_deterministic (f1 f2 : Option RawTable) (h : f1 = f2) :
    pipeline f1 = pipeline f2 := by
  rw [h]

theorem C9_witness :
    (some exTable : Option RawTable) = some exTable ∧
    pipeline (some exTable) = pipeline (some exTable) :=
  ⟨rfl, C9_deterministic (some exTable) (some exTable) rfl⟩

/-- Claim C10 (confirmed): no load failure escapes the loader — a raised
read exception (an unreadable or malformed file, modelled by the `none`
input that the `try/except` catches) and a missing canonical column both
collapse to the same indistinguishable `None` result, and a subsequent
`analyze` on a failed load returns the tuple of five `None`s instead of
raising. -/
theorem C10_failure_collapse (f : Option RawTable) (h : loadDataFile f = none) :
    analyze (loadDataFile f) = (none, none, none, none, none) ∧
    loadDataFile (none : Option RawTable) = none ∧
    (∀ (hs : List String) (rows : List (List String)),
      (∃ c ∈ CANONICAL, (hs.map renameHeader).contains c = false) →
        loadDataFile (some ⟨hs, rows⟩) = none) := by
  refine ⟨by rw [h]; rfl, rfl, ?_⟩
  intro hs rows hmiss
  exact loadData_none_of_missing hs rows hmiss

theorem C10_witness :
    loadDataFile (none : Option RawTable) = none ∧
    analyze (loadDataFile (none : Option RawTable)) =
      (none, none, none, none, none) :=
  ⟨rfl, (C10_failure_collapse none rfl).1⟩

end Nifty
